import Mathlib

/-!
Verification of the `avosetta` HTML templating compiler.

This file gives a shallow embedding of the repository's core:

* the AST model (`src/packages/avosetta-macros/src/ast.rs`),
* the token-level recursive-descent parser
  (`src/packages/avosetta-macros/src/parse.rs`),
* the code generator with its literal-buffering `Stream`
  (`src/packages/avosetta-macros/src/generate.rs`),
* the runtime rendering capability (`src/packages/avosetta/src/lib.rs`),

and proves the specification's claims about them.

Modelling conventions:

* Rust `proc_macro2` token streams are modelled by `Tok` lists; a
  delimited group (`{...}`, `[...]`, `(...)`) is a single token tree
  carrying its contents, exactly as in `proc_macro2`.
* `syn::Expr` is opaque to this crate except for the literal cases the
  generator inspects (`Expr::Lit(Lit::Str)` and `Expr::Lit(Lit::Bool)`);
  it is modelled by `Expr` with a `dyn` constructor carrying the verbatim
  token payload for every other expression.  `syn`'s expression parser is
  an external dependency; where the repository calls it we model it as
  splitting off the token prefix up to the relevant stop token.
* The generated Rust code is modelled as the `Instr` list it amounts to:
  a flush of a pre-escaped literal, a dynamic `Html::write`, a dynamic
  attribute-pair write, control-flow headers and nested braced blocks.
* Parsing uses a fuel parameter purely to make the recursion structural;
  `fuelError` is an artifact of the embedding and is never produced when
  the fuel exceeds the nesting depth of the input.
-/

set_option linter.unusedVariables false

namespace Avosetta

/-- One `proc_macro2` token tree, restricted to the shapes the template
grammar distinguishes.  Delimited groups carry their contents. -/
inductive Tok where
  | litStr (s : String)
  | litBool (b : Bool)
  | ident (s : String)
  | kwIf
  | kwElse
  | kwMatch
  | kwFor
  | kwIn
  | semi
  | atSign
  | eqSign
  | comma
  | fatArrow
  | braces (ts : List Tok)
  | brackets (ts : List Tok)
  | parens (ts : List Tok)
  | other (s : String)

/-- `syn::Expr` as seen by this crate: the generator inspects only
string and boolean literals (`generate.rs` matches on
`Expr::Lit(Lit::Str)` / `Expr::Lit(Lit::Bool)`); every other host
expression is an opaque verbatim token payload. -/
inductive Expr where
  | litStr (s : String)
  | litBool (b : Bool)
  | dyn (ts : List Tok)

/-- `syn::Pat` is never inspected; opaque verbatim token payload. -/
def Pat : Type := List Tok

/-- `ast.rs` `Name`: a tag or attribute name, a string literal or a bare
identifier. -/
inductive Name where
  | lit (s : String)
  | ident (s : String)

/-- `ast.rs` `Attr`: name plus optional value (`AttrValue` holds just the
expression after the `=`). -/
structure Attr where
  name : Name
  value : Option Expr

/-- `ast.rs` `Attrs`: bracketed, comma-separated attribute list. -/
structure Attrs where
  inner : List Attr

/-- `ast.rs` `Void`: a void element `name attrs? ;` — it has no children
slot at all. -/
structure Void where
  name : Name
  attrs : Option Attrs

mutual

/-- `ast.rs` `Group`: ordered sequence of nodes. -/
inductive Group where
  | mk (nodes : List Node)

/-- `ast.rs` `Node`. -/
inductive Node where
  | element (e : Element)
  | interp (v : InterpValue)
  | literal (s : String)

/-- `ast.rs` `Element`. -/
inductive Element where
  | normal (n : Normal)
  | void (v : Void)

/-- `ast.rs` `Normal`: `name attrs? { group }` with `inner = none` for an
empty body. -/
inductive Normal where
  | mk (name : Name) (attrs : Option Attrs) (inner : Option Group)

/-- `ast.rs` `InterpValue` (the `Interp` wrapper only adds the `@`
token, so it is flattened away). -/
inductive InterpValue where
  | imatch (scrut : Expr) (arms : List InterpArm)
  | iif (cond : Expr) (thenBranch : Group) (elseIf : List InterpElseIf)
      (elseBranch : Option InterpElse)
  | expr (e : Expr)
  | ifor (pat : Pat) (iter : Expr) (body : Group)

/-- `ast.rs` `InterpArm`: `pat => body ,?`. -/
inductive InterpArm where
  | mk (pat : Pat) (body : InterpArmExpr)

/-- `ast.rs` `InterpArmExpr`: braced group or bare string literal. -/
inductive InterpArmExpr where
  | group (g : Group)
  | literal (s : String)

/-- `ast.rs` `InterpElseIf`. -/
inductive InterpElseIf where
  | mk (cond : Expr) (group : Group)

/-- `ast.rs` `InterpElse`. -/
inductive InterpElse where
  | mk (group : Group)

end

/-- The nodes of a `Group`. -/
def Group.nodes : Group → List Node
  | .mk ns => ns

/-- The output instructions of the generated program, i.e. the statement
kinds `generate.rs` writes into its `proc_macro2::TokenStream`. -/
inductive Instr where
  /-- `Html::write(raw("..."), __s);` — write an accumulated, already
  escaped literal buffer verbatim. -/
  | flush (s : String)
  /-- `Html::write(expr, __s);` — dynamic value write. -/
  | write (e : Expr)
  /-- `Html::write(Attr(name, expr), __s);` — dynamic attribute pair. -/
  | writeAttr (k : String) (e : Expr)
  /-- `match expr` header. -/
  | matchHead (e : Expr)
  /-- `pat =>` arm header. -/
  | armHead (p : Pat)
  /-- `for pat in expr` header. -/
  | forHead (p : Pat) (e : Expr)
  /-- `if cond` header. -/
  | ifHead (e : Expr)
  /-- `else if cond` header. -/
  | elseIfHead (e : Expr)
  /-- `else` header. -/
  | elseHead
  /-- `{ ... }` nested braced block of statements. -/
  | block (is : List Instr)

/-- `generate.rs` `Stream`: the emitted statements so far plus the
pending literal buffer. -/
structure Stream where
  stream : List Instr
  buffer : String

/-- `Stream::new`. -/
def Stream.new : Stream := ⟨[], ""⟩

/-- `Stream::push_char`. -/
def Stream.push_char (st : Stream) (c : Char) : Stream :=
  { st with buffer := st.buffer.push c }

/-- `Stream::push_raw`. -/
def Stream.push_raw (st : Stream) (s : String) : Stream :=
  { st with buffer := st.buffer ++ s }

/-- The text appended per character by `Stream::push_escaped`'s match
(`generate.rs` lines 37–51). -/
def Stream.escSeg (c : Char) : String :=
  if c = '&' then "&amp;"
  else if c = '<' then "&lt;"
  else if c = '>' then "&gt;"
  else if c = Char.ofNat 39 then "&apos;"
  else if c = '"' then "&quot;"
  else String.singleton c

/-- The loop of `Stream::push_escaped`: fold over the characters,
appending each one's (possibly escaped) segment to the buffer. -/
def Stream.escFold (b : String) : List Char → String
  | [] => b
  | c :: cs => Stream.escFold (b ++ Stream.escSeg c) cs

/-- `Stream::push_escaped`. -/
def Stream.push_escaped (st : Stream) (s : String) : Stream :=
  { st with buffer := Stream.escFold st.buffer s.data }

/-- `Stream::push_tokens`: if the buffer is non-empty, first emit a
verbatim flush of it and clear it; then emit the given statement. -/
def Stream.push_tokens (st : Stream) (i : Instr) : Stream :=
  if st.buffer = "" then
    { st with stream := st.stream ++ [i] }
  else
    { stream := st.stream ++ [Instr.flush st.buffer, i], buffer := "" }

/-- `Stream::push_write` for a plain expression:
`push_tokens(Html::write(expr, __s);)`. -/
def Stream.push_write (st : Stream) (e : Expr) : Stream :=
  st.push_tokens (Instr.write e)

/-- `impl ToTokens for Stream`: the statements followed by a final flush
of any remaining non-empty buffer. -/
def Stream.toInstrs (st : Stream) : List Instr :=
  st.stream ++ (if st.buffer = "" then [] else [Instr.flush st.buffer])

/-- `Stream::push_braced` with the inner stream already built: wrap the
inner stream's rendered statements in a braced block and push it. -/
def Stream.push_block (st : Stream) (inner : Stream) : Stream :=
  st.push_tokens (Instr.block inner.toInstrs)

/-- `impl Generate for Name`: the name's text is pushed raw (unescaped)
into the buffer, both for string-literal and identifier names. -/
def Name.text : Name → String
  | .lit s => s
  | .ident s => s

/-- `impl Generate for Name` (`generate.rs` lines 309–322). -/
def Name.generate (n : Name) (st : Stream) : Stream :=
  st.push_raw n.text

/-- `impl Generate for Attr` (`generate.rs` lines 333–376). -/
def Attr.generate (a : Attr) (st : Stream) : Stream :=
  match a.value with
  | some (Expr.litStr s) =>
      let st := st.push_char ' '
      let st := a.name.generate st
      let st := st.push_char '='
      let st := st.push_char '"'
      let st := st.push_escaped s
      st.push_char '"'
  | some (Expr.litBool b) =>
      if b then
        let st := st.push_char ' '
        a.name.generate st
      else
        st
  | some (Expr.dyn ts) =>
      let st := st.push_char ' '
      st.push_tokens (Instr.writeAttr a.name.text (Expr.dyn ts))
  | none =>
      let st := st.push_char ' '
      a.name.generate st

/-- `impl Generate for Attrs`. -/
def Attrs.generate (a : Attrs) (st : Stream) : Stream :=
  a.inner.foldl (fun st attr => attr.generate st) st

/-- The `if let Some(attrs) = &self.attrs` step shared by `Normal` and
`Void` generation. -/
def Attrs.generateOpt : Option Attrs → Stream → Stream
  | some a, st => a.generate st
  | none, st => st

mutual

/-- `impl Generate for Group`. -/
def Group.generate : Group → Stream → Stream
  | .mk ns, st => Node.generateList ns st

/-- The `for node in &self.0` loop of `Group`'s generation. -/
def Node.generateList : List Node → Stream → Stream
  | [], st => st
  | n :: rest, st => Node.generateList rest (Node.generate n st)

/-- `impl Generate for Node`. -/
def Node.generate : Node → Stream → Stream
  | .element e, st => Element.generate e st
  | .interp v, st => InterpValue.generate v st
  | .literal s, st => st.push_escaped s

/-- `impl Generate for Element`. -/
def Element.generate : Element → Stream → Stream
  | .normal n, st => Normal.generate n st
  | .void v, st => Void.generate v st

/-- `impl Generate for Normal` (`generate.rs` lines 272–293). -/
def Normal.generate : Normal → Stream → Stream
  | .mk name attrs inner, st =>
      let st := st.push_char '<'
      let st := name.generate st
      let st := Attrs.generateOpt attrs st
      let st := st.push_char '>'
      let st :=
        match inner with
        | some g => Group.generate g st
        | none => st
      let st := st.push_char '<'
      let st := st.push_char '/'
      let st := name.generate st
      st.push_char '>'

/-- `impl Generate for Void` (`generate.rs` lines 295–307). -/
def Void.generate : Void → Stream → Stream
  | v, st =>
      let st := st.push_char '<'
      let st := v.name.generate st
      let st := Attrs.generateOpt v.attrs st
      st.push_char '>'

/-- `impl Generate for InterpValue` (`generate.rs` lines 140–170). -/
def InterpValue.generate : InterpValue → Stream → Stream
  | .imatch scrut arms, st =>
      let st := st.push_tokens (Instr.matchHead scrut)
      st.push_block (InterpArm.generateList arms Stream.new)
  | .iif cond thenB elseIfs elseB, st =>
      let st := st.push_tokens (Instr.ifHead cond)
      let st := st.push_block (Group.generate thenB Stream.new)
      let st := InterpElseIf.generateList elseIfs st
      match elseB with
      | some e => InterpElse.generate e st
      | none => st
  | .expr e, st =>
      match e with
      | Expr.litStr s => st.push_escaped s
      | e => st.push_write e
  | .ifor pat iter body, st =>
      let st := st.push_tokens (Instr.forHead pat iter)
      st.push_block (Group.generate body Stream.new)

/-- The arm loop inside `InterpMatch`'s `push_braced`. -/
def InterpArm.generateList : List InterpArm → Stream → Stream
  | [], st => st
  | a :: rest, st => InterpArm.generateList rest (InterpArm.generate a st)

/-- `impl Generate for InterpArm`. -/
def InterpArm.generate : InterpArm → Stream → Stream
  | .mk pat body, st =>
      let st := st.push_tokens (Instr.armHead pat)
      st.push_block (InterpArmExpr.generate body Stream.new)

/-- `impl Generate for InterpArmExpr` and `InterpArmGroup`: a braced
group becomes a nested block, a bare string literal is escaped into the
buffer. -/
def InterpArmExpr.generate : InterpArmExpr → Stream → Stream
  | .group g, st => Stream.push_block st (Group.generate g Stream.new)
  | .literal s, st => st.push_escaped s

/-- The `for else_if in &self.else_if` loop of `InterpIf`. -/
def InterpElseIf.generateList : List InterpElseIf → Stream → Stream
  | [], st => st
  | e :: rest, st => InterpElseIf.generateList rest (InterpElseIf.generate e st)

/-- `impl Generate for InterpElseIf`. -/
def InterpElseIf.generate : InterpElseIf → Stream → Stream
  | .mk cond g, st =>
      let st := st.push_tokens (Instr.elseIfHead cond)
      st.push_block (Group.generate g Stream.new)

/-- `impl Generate for InterpElse`. -/
def InterpElse.generate : InterpElse → Stream → Stream
  | .mk g, st =>
      let st := st.push_tokens (Instr.elseHead)
      st.push_block (Group.generate g Stream.new)

end

/-- `Generate::to_token_stream` on a `Group` (the body of the emitted
closure): generate into a fresh stream and flush any remaining buffer. -/
def compileGroup (g : Group) : List Instr :=
  (Group.generate g Stream.new).toInstrs

example :
    compileGroup (Group.mk [Node.literal "Hi"]) = [Instr.flush "Hi"] := rfl

/-! ### Instruction counting

Flush instructions and dynamic-write instructions of an output program,
counted through nested blocks. -/

mutual

/-- Number of literal-flush instructions in one instruction. -/
def Instr.countFlush : Instr → Nat
  | .flush _ => 1
  | .block is => Instr.countFlushList is
  | _ => 0

/-- Number of literal-flush instructions in a program. -/
def Instr.countFlushList : List Instr → Nat
  | [] => 0
  | i :: rest => i.countFlush + Instr.countFlushList rest

end

mutual

/-- Number of dynamic write instructions (value writes and attribute-pair
writes) in one instruction. -/
def Instr.countWrite : Instr → Nat
  | .write _ => 1
  | .writeAttr _ _ => 1
  | .block is => Instr.countWriteList is
  | _ => 0

/-- Number of dynamic write instructions in a program. -/
def Instr.countWriteList : List Instr → Nat
  | [] => 0
  | i :: rest => i.countWrite + Instr.countWriteList rest

end

/-! ### Runtime rendering capability

`src/packages/avosetta/src/lib.rs`.  An `Html` implementation appends a
value's representation to a caller-owned `String`. -/

namespace Html

/-- `impl Html for char` (`lib.rs` lines 290–307): escape-aware single
character append. -/
def charWrite (c : Char) (s : String) : String :=
  if c = '&' then s ++ "&amp;"
  else if c = '<' then s ++ "&lt;"
  else if c = '>' then s ++ "&gt;"
  else if c = Char.ofNat 39 then s ++ "&apos;"
  else if c = '"' then s ++ "&quot;"
  else s.push c

/-- The loop of `impl Html for &str`: write each character. -/
def strWriteAux : List Char → String → String
  | [], s => s
  | c :: cs, s => strWriteAux cs (charWrite c s)

/-- `impl Html for &str` (`lib.rs` lines 309–316). -/
def strWrite (t : String) (s : String) : String :=
  strWriteAux t.data s

/-- `impl Html for Raw<&str>` (`lib.rs` lines 318–323): verbatim append,
no escaping. -/
def rawWrite (t : String) (s : String) : String :=
  s ++ t

/-- `impl Html for bool`. -/
def boolWrite (b : Bool) (s : String) : String :=
  if b then s ++ "true" else s ++ "false"

/-- The integer `Html` implementations (`itoa` decimal formatting). -/
def intWrite (n : Int) (s : String) : String :=
  s ++ n.repr

/-- `impl Html for Attr<&str, &str>` (`lib.rs` lines 408–416): the key
verbatim, `="`, the escaped value, `"`. -/
def attrStr (k : String) (v : String) (s : String) : String :=
  strWrite v ((s ++ k) ++ "=\"") ++ "\""

/-- `impl Html for Attr<&str, bool>` (`lib.rs` lines 438–445): bare key
when `true`, nothing at all when `false`. -/
def attrBool (k : String) (v : Bool) (s : String) : String :=
  if v then s ++ k else s

/-- `impl Html for Attr<&str, Option<T>>` (`lib.rs` lines 447–457),
parametrised by the `Attr<&str, T>` implementation `w`: delegate for
`Some`, append nothing for `None`. -/
def attrOpt {α : Type} (w : String → α → String → String) (k : String) :
    Option α → String → String
  | some x, s => w k x s
  | none, s => s

/-- `impl Html for Option<T>` (`lib.rs` lines 325–335), parametrised by
the inner implementation. -/
def optWrite {α : Type} (w : α → String → String) :
    Option α → String → String
  | some x, s => w x s
  | none, s => s

end Html

/-- Execute a straight-line output program against a caller-owned buffer.
Flushes append their pre-escaped literal verbatim (`raw` write); dynamic
writes are resolved by the environments `env` (plain value writes) and
`envA` (attribute-pair writes), which supply the `Html` implementation of
the host expression's runtime value.  Control-flow instructions require
host evaluation and are out of scope here (`none`). -/
def runProgram (env : Expr → Option (String → String))
    (envA : String → Expr → Option (String → String)) :
    List Instr → String → Option String
  | [], s => some s
  | Instr.flush t :: rest, s => runProgram env envA rest (Html.rawWrite t s)
  | Instr.write e :: rest, s =>
      match env e with
      | some w => runProgram env envA rest (w s)
      | none => none
  | Instr.writeAttr k e :: rest, s =>
      match envA k e with
      | some w => runProgram env envA rest (w s)
      | none => none
  | _ :: _, _ => none

/-! ### Static content

The claim-level notion of static content: literal text, literal
tag/attribute names, literal attribute values, static elements.
Interpolations are dynamic constructs. -/

/-- An attribute is static when it has no value (boolean-true shorthand)
or a literal string/boolean value. -/
def Attr.isStatic (a : Attr) : Bool :=
  match a.value with
  | none => true
  | some (Expr.litStr _) => true
  | some (Expr.litBool _) => true
  | some (Expr.dyn _) => false

/-- All attributes static. -/
def Attrs.isStaticOpt : Option Attrs → Bool
  | none => true
  | some a => a.inner.all Attr.isStatic

/-- A void element is static when its attributes are. -/
def Void.isStatic (v : Void) : Bool :=
  Attrs.isStaticOpt v.attrs

mutual

/-- A group is static when all its nodes are. -/
def Group.isStatic : Group → Bool
  | .mk ns => Node.isStaticList ns

def Node.isStaticList : List Node → Bool
  | [] => true
  | n :: rest => Node.isStatic n && Node.isStaticList rest

/-- A node is static when it is literal text or an element whose
attributes and children are static; interpolations are dynamic. -/
def Node.isStatic : Node → Bool
  | .literal _ => true
  | .interp _ => false
  | .element (.void v) => v.isStatic
  | .element (.normal (.mk _ attrs inner)) =>
      Attrs.isStaticOpt attrs &&
      (match inner with
       | some g => Group.isStatic g
       | none => true)

end

/-- The escaped form of a character list (the text `push_escaped` appends
over an empty buffer). -/
def escText : List Char → String
  | [] => ""
  | c :: cs => Stream.escSeg c ++ escText cs

/-- The literal text a static attribute contributes to the buffer. -/
def Attr.staticText (a : Attr) : String :=
  match a.value with
  | none => " " ++ a.name.text
  | some (Expr.litStr s) =>
      " " ++ a.name.text ++ "=" ++ "\"" ++ escText s.data ++ "\""
  | some (Expr.litBool b) => if b then " " ++ a.name.text else ""
  | some (Expr.dyn _) => ""

/-- The literal text a static attribute list contributes. -/
def Attrs.staticTextOpt : Option Attrs → String
  | none => ""
  | some a => a.inner.foldl (fun acc attr => acc ++ attr.staticText) ""

mutual

/-- The literal text a static group compiles to. -/
def Group.staticText : Group → String
  | .mk ns => Node.staticTextList ns

def Node.staticTextList : List Node → String
  | [] => ""
  | n :: rest => Node.staticText n ++ Node.staticTextList rest

/-- The literal text a static node compiles to (unused on dynamic
nodes). -/
def Node.staticText : Node → String
  | .literal s => escText s.data
  | .interp _ => ""
  | .element (.void v) =>
      "<" ++ v.name.text ++ Attrs.staticTextOpt v.attrs ++ ">"
  | .element (.normal (.mk name attrs inner)) =>
      "<" ++ name.text ++ Attrs.staticTextOpt attrs ++ ">" ++
      (match inner with
       | some g => Group.staticText g
       | none => "") ++
      "<" ++ "/" ++ name.text ++ ">"

end

/-! ### Concrete example templates from the specification -/

/-- `div[class="a"]{ "Hi" }`. -/
def exDiv : Group :=
  Group.mk [Node.element (Element.normal (Normal.mk (Name.ident "div")
    (some ⟨[⟨Name.ident "class", some (Expr.litStr "a")⟩]⟩)
    (some (Group.mk [Node.literal "Hi"]))))]

/-- `div { @x }`. -/
def exDivX : Group :=
  Group.mk [Node.element (Element.normal (Normal.mk (Name.ident "div")
    none
    (some (Group.mk [Node.interp (InterpValue.expr (Expr.dyn [Tok.ident "x"]))]))))]

/-- The void element of `meta[charset="UTF-8"];`. -/
def exMetaVoid : Void :=
  ⟨Name.ident "meta", some ⟨[⟨Name.ident "charset", some (Expr.litStr "UTF-8")⟩]⟩⟩

/-- `meta[charset="UTF-8"];`. -/
def exMeta : Group :=
  Group.mk [Node.element (Element.void exMetaVoid)]

/-- `input[checked=@b];` — a void element with one dynamic-valued
attribute. -/
def exInput : Group :=
  Group.mk [Node.element (Element.void
    ⟨Name.ident "input", some ⟨[⟨Name.ident "checked", some (Expr.dyn [Tok.ident "b"])⟩]⟩⟩)]

/-- `area[href=@h];` — a void element with a dynamic attribute value. -/
def exArea : Group :=
  Group.mk [Node.element (Element.void
    ⟨Name.ident "area", some ⟨[⟨Name.ident "href", some (Expr.dyn [Tok.ident "h"])⟩]⟩⟩)]

example : compileGroup exDiv = [Instr.flush "<div class=\"a\">Hi</div>"] := rfl

example : compileGroup exDivX =
    [Instr.flush "<div>", Instr.write (Expr.dyn [Tok.ident "x"]),
     Instr.flush "</div>"] := rfl

example : compileGroup exMeta = [Instr.flush "<meta charset=\"UTF-8\">"] := rfl

example : compileGroup exInput =
    [Instr.flush "<input ",
     Instr.writeAttr "checked" (Expr.dyn [Tok.ident "b"]),
     Instr.flush ">"] := rfl

/-! ### Parser

`src/packages/avosetta-macros/src/parse.rs`.  `syn`'s `ParseStream` is a
cursor over token trees; we model it as a `List Tok`.  A failed
`lookahead1`/`parse` yields a `syn::Error` carrying the error position
and the description of the expected tokens; we model the position as the
remaining token list at the failure. -/

/-- A `syn::Error`: the expected-token descriptions and the position
(modelled as the unconsumed remainder of the token stream). -/
structure ParseError where
  expected : List String
  rest : List Tok

/-- Out-of-fuel marker; an artifact of the fuel-indexed embedding only,
never produced when the fuel exceeds the input's nesting depth. -/
def fuelError (ts : List Tok) : ParseError :=
  ⟨["out of fuel"], ts⟩

/-- `lookahead.peek(LitStr) || lookahead.peek(Ident)`: does the stream
begin with a `Name` token?  (`syn::Ident` does not match keywords, which
are separate token kinds here.) -/
def peekName : List Tok → Bool
  | Tok.litStr _ :: _ => true
  | Tok.ident _ :: _ => true
  | _ => false

/-- The element lookahead of `impl Parse for Node` (`parse.rs` lines
32–35): `peek2(Brace) || (peek2(Bracket) && peek3(Brace)) || peek2(;) ||
(peek2(Bracket) && peek3(;))`. -/
def nodeElemCond : List Tok → Bool
  | _ :: Tok.braces _ :: _ => true
  | _ :: Tok.brackets _ :: Tok.braces _ :: _ => true
  | _ :: Tok.semi :: _ => true
  | _ :: Tok.brackets _ :: Tok.semi :: _ => true
  | _ => false

/-- The void lookahead of `impl Parse for Element` (`parse.rs` line 210):
`peek2(;) || (peek2(Bracket) && peek3(;))`. -/
def voidCond : List Tok → Bool
  | _ :: Tok.semi :: _ => true
  | _ :: Tok.brackets _ :: Tok.semi :: _ => true
  | _ => false

/-- The expected-token set of `Node`'s `lookahead1` (string literal,
identifier, `@`). -/
def nodeExpected : List String :=
  ["string literal", "identifier", "@"]

/-- `impl Parse for Name` (`parse.rs` lines 281–294). -/
def parseName : List Tok → Except ParseError (Name × List Tok)
  | Tok.litStr s :: rest => .ok (Name.lit s, rest)
  | Tok.ident s :: rest => .ok (Name.ident s, rest)
  | ts => .error ⟨["string literal", "identifier"], ts⟩

/-- `input.parse::<LitStr>()`. -/
def parseLitStr : List Tok → Except ParseError (String × List Tok)
  | Tok.litStr s :: rest => .ok (s, rest)
  | ts => .error ⟨["string literal"], ts⟩

/-- Split off the tokens before the first top-level token satisfying
`stop` (tokens inside delimited groups are never top-level). -/
def splitTop (stop : Tok → Bool) : List Tok → List Tok × List Tok
  | [] => ([], [])
  | t :: rest =>
      if stop t then ([], t :: rest)
      else
        let p := splitTop stop rest
        (t :: p.1, p.2)

/-- Classify a consumed expression token payload the way the generator's
matches will see it: a lone string literal token is `Expr::Lit(Str)`, a
lone boolean literal is `Expr::Lit(Bool)`, anything else is opaque. -/
def classifyExpr : List Tok → Expr
  | [Tok.litStr s] => Expr.litStr s
  | [Tok.litBool b] => Expr.litBool b
  | ts => Expr.dyn ts

/-- A call to `syn`'s (external) expression parser, modelled as consuming
the tokens before the first top-level stop token; an empty payload is the
`expected expression` error. -/
def parseExprStop (stop : Tok → Bool) (ts : List Tok) :
    Except ParseError (Expr × List Tok) :=
  let p := splitTop stop ts
  if p.1.isEmpty then .error ⟨["expression"], ts⟩
  else .ok (classifyExpr p.1, p.2)

/-- Stop predicate: a top-level comma (`Punctuated` separator). -/
def stopComma : Tok → Bool
  | Tok.comma => true
  | _ => false

/-- Stop predicate: a top-level brace group (body start). -/
def stopBraces : Tok → Bool
  | Tok.braces _ => true
  | _ => false

/-- Stop predicate: a top-level `=>` (match-arm pattern end). -/
def stopFatArrow : Tok → Bool
  | Tok.fatArrow => true
  | _ => false

/-- Stop predicate: a top-level `in` (for-loop pattern end). -/
def stopKwIn : Tok → Bool
  | Tok.kwIn => true
  | _ => false

/-- `impl Parse for Attr` (`parse.rs` lines 267–279): a name, then an
optional `= expr` value (the expression runs to the separating comma). -/
def parseAttrSingle (ts : List Tok) : Except ParseError (Attr × List Tok) := do
  let (name, ts1) ← parseName ts
  match ts1 with
  | Tok.eqSign :: ts2 => do
      let (e, rest) ← parseExprStop stopComma ts2
      .ok (⟨name, some e⟩, rest)
  | _ => .ok (⟨name, none⟩, ts1)

/-- `parse_terminated(Attr::parse, Token![,])` over the bracket group's
contents: attributes separated by commas, optional trailing comma, the
whole group consumed. -/
def parseAttrList : Nat → List Tok → Except ParseError (List Attr)
  | 0, ts => .error (fuelError ts)
  | _fuel+1, [] => .ok []
  | fuel+1, ts => do
      let (a, rest) ← parseAttrSingle ts
      match rest with
      | [] => .ok [a]
      | Tok.comma :: rest2 => do
          let l ← parseAttrList fuel rest2
          .ok (a :: l)
      | rest => .error ⟨[","], rest⟩

/-- The `if input.peek(Bracket) { Some(input.parse::<Attrs>()?) }` step
shared by `Normal` and `Void` parsing. -/
def parseOptAttrs (fuel : Nat) (ts : List Tok) :
    Except ParseError (Option Attrs × List Tok) :=
  match ts with
  | Tok.brackets inner :: rest => do
      let l ← parseAttrList fuel inner
      .ok (some ⟨l⟩, rest)
  | _ => .ok (none, ts)

/-- `impl Parse for Void` (`parse.rs` lines 240–253): name, optional
bracketed attributes, `;`. -/
def parseVoid (fuel : Nat) (ts : List Tok) :
    Except ParseError (Void × List Tok) := do
  let (name, ts1) ← parseName ts
  let (attrs, ts2) ← parseOptAttrs fuel ts1
  match ts2 with
  | Tok.semi :: rest => .ok (⟨name, attrs⟩, rest)
  | ts2 => .error ⟨[";"], ts2⟩

mutual

/-- `impl Parse for Group` (`parse.rs` lines 13–24): parse nodes until
the stream is empty; the first error aborts the whole parse. -/
def parseGroup : Nat → List Tok → Except ParseError Group
  | 0, ts => .error (fuelError ts)
  | _fuel+1, [] => .ok (Group.mk [])
  | fuel+1, ts => do
      let (n, rest) ← parseNode fuel ts
      let g ← parseGroup fuel rest
      .ok (Group.mk (n :: g.nodes))

/-- `impl Parse for Node` (`parse.rs` lines 26–47): a leading `Name`
starts an element iff `nodeElemCond`, otherwise the token is parsed as a
`LitStr` literal node; `@` starts an interpolation; anything else is the
lookahead error. -/
def parseNode : Nat → List Tok → Except ParseError (Node × List Tok)
  | 0, ts => .error (fuelError ts)
  | fuel+1, ts =>
      if peekName ts then
        if nodeElemCond ts then do
          let (e, rest) ← parseElement fuel ts
          .ok (Node.element e, rest)
        else do
          let (s, rest) ← parseLitStr ts
          .ok (Node.literal s, rest)
      else
        match ts with
        | Tok.atSign :: ts1 => do
            let (v, rest) ← parseInterpValue fuel ts1
            .ok (Node.interp v, rest)
        | ts => .error ⟨nodeExpected, ts⟩

/-- `impl Parse for Element` (`parse.rs` lines 207–216). -/
def parseElement : Nat → List Tok → Except ParseError (Element × List Tok)
  | 0, ts => .error (fuelError ts)
  | fuel+1, ts =>
      if voidCond ts then do
        let (v, rest) ← parseVoid fuel ts
        .ok (Element.void v, rest)
      else do
        let (n, rest) ← parseNormal fuel ts
        .ok (Element.normal n, rest)

/-- `impl Parse for Normal` (`parse.rs` lines 218–238): name, optional
attributes, then a braced body; an empty body gives `inner = none`. -/
def parseNormal : Nat → List Tok → Except ParseError (Normal × List Tok)
  | 0, ts => .error (fuelError ts)
  | fuel+1, ts => do
      let (name, ts1) ← parseName ts
      let (attrs, ts2) ← parseOptAttrs fuel ts1
      match ts2 with
      | Tok.braces inner :: rest =>
          if inner.isEmpty then .ok (Normal.mk name attrs none, rest)
          else do
            let g ← parseGroup fuel inner
            .ok (Normal.mk name attrs (some g), rest)
      | ts2 => .error ⟨["curly braces"], ts2⟩

/-- `impl Parse for InterpValue` (`parse.rs` lines 59–72): dispatch on
the leading keyword, defaulting to a bare expression (which, at node
level, runs to the next top-level brace group or the end; `syn::Expr` is
external, see `parseExprStop`). -/
def parseInterpValue : Nat → List Tok → Except ParseError (InterpValue × List Tok)
  | 0, ts => .error (fuelError ts)
  | fuel+1, ts =>
      match ts with
      | Tok.kwIf :: _ => parseInterpIf fuel ts
      | Tok.kwMatch :: _ => parseInterpMatch fuel ts
      | Tok.kwFor :: _ => parseInterpFor fuel ts
      | ts => do
          let (e, rest) ← parseExprStop stopBraces ts
          .ok (InterpValue.expr e, rest)

/-- `impl Parse for InterpIf` (`parse.rs` lines 74–100). -/
def parseInterpIf : Nat → List Tok → Except ParseError (InterpValue × List Tok)
  | 0, ts => .error (fuelError ts)
  | fuel+1, ts =>
      match ts with
      | Tok.kwIf :: ts1 => do
          let (cond, ts2) ← parseExprStop stopBraces ts1
          match ts2 with
          | Tok.braces inner :: rest => do
              let thenB ← parseGroup fuel inner
              let (elifs, rest2) ← parseElseIfList fuel rest
              match rest2 with
              | Tok.kwElse :: _ => do
                  let (e, rest3) ← parseInterpElse fuel rest2
                  .ok (InterpValue.iif cond thenB elifs (some e), rest3)
              | _ => .ok (InterpValue.iif cond thenB elifs none, rest2)
          | ts2 => .error ⟨["curly braces"], ts2⟩
      | ts => .error ⟨["if"], ts⟩

/-- The `while input.peek(else) && input.peek2(if)` loop with
`impl Parse for InterpElseIf` (`parse.rs` lines 84–92, 102–115). -/
def parseElseIfList : Nat → List Tok →
    Except ParseError (List InterpElseIf × List Tok)
  | 0, ts => .error (fuelError ts)
  | fuel+1, ts =>
      match ts with
      | Tok.kwElse :: Tok.kwIf :: ts2 => do
          let (cond, ts3) ← parseExprStop stopBraces ts2
          match ts3 with
          | Tok.braces inner :: rest => do
              let g ← parseGroup fuel inner
              let (l, rest2) ← parseElseIfList fuel rest
              .ok (InterpElseIf.mk cond g :: l, rest2)
          | ts3 => .error ⟨["curly braces"], ts3⟩
      | ts => .ok ([], ts)

/-- `impl Parse for InterpElse` (`parse.rs` lines 117–128). -/
def parseInterpElse : Nat → List Tok →
    Except ParseError (InterpElse × List Tok)
  | 0, ts => .error (fuelError ts)
  | fuel+1, ts =>
      match ts with
      | Tok.kwElse :: Tok.braces inner :: rest => do
          let g ← parseGroup fuel inner
          .ok (InterpElse.mk g, rest)
      | Tok.kwElse :: ts1 => .error ⟨["curly braces"], ts1⟩
      | ts => .error ⟨["else"], ts⟩

/-- `impl Parse for InterpMatch` (`parse.rs` lines 146–166): `match`, the
scrutinee (`parse_without_eager_brace`, stopping before the arm block),
then the braced arm list, fully consumed. -/
def parseInterpMatch : Nat → List Tok →
    Except ParseError (InterpValue × List Tok)
  | 0, ts => .error (fuelError ts)
  | fuel+1, ts =>
      match ts with
      | Tok.kwMatch :: ts1 => do
          let (scrut, ts2) ← parseExprStop stopBraces ts1
          match ts2 with
          | Tok.braces inner :: rest => do
              let arms ← parseArmList fuel inner
              .ok (InterpValue.imatch scrut arms, rest)
          | ts2 => .error ⟨["curly braces"], ts2⟩
      | ts => .error ⟨["match"], ts⟩

/-- The `while !arms.is_empty()` loop of `InterpMatch`. -/
def parseArmList : Nat → List Tok → Except ParseError (List InterpArm)
  | 0, ts => .error (fuelError ts)
  | _fuel+1, [] => .ok []
  | fuel+1, ts => do
      let (a, rest) ← parseArm fuel ts
      let l ← parseArmList fuel rest
      .ok (a :: l)

/-- `impl Parse for InterpArm` (`parse.rs` lines 168–178): a pattern
(running to the `=>`), `=>`, a braced group or string-literal body
(`InterpArmExpr`, lines 180–205), then an optional comma. -/
def parseArm : Nat → List Tok → Except ParseError (InterpArm × List Tok)
  | 0, ts => .error (fuelError ts)
  | fuel+1, ts =>
      let p := splitTop stopFatArrow ts
      if p.1.isEmpty then .error ⟨["pattern"], ts⟩
      else
        match p.2 with
        | Tok.fatArrow :: ts2 =>
            match ts2 with
            | Tok.braces inner :: rest => do
                let g ← parseGroup fuel inner
                let rest2 :=
                  match rest with
                  | Tok.comma :: r => r
                  | r => r
                .ok (InterpArm.mk p.1 (InterpArmExpr.group g), rest2)
            | Tok.litStr s :: rest =>
                let rest2 :=
                  match rest with
                  | Tok.comma :: r => r
                  | r => r
                .ok (InterpArm.mk p.1 (InterpArmExpr.literal s), rest2)
            | ts2 => .error ⟨["curly braces", "string literal"], ts2⟩
        | _ => .error ⟨["=>"], ts⟩

/-- `impl Parse for InterpFor` (`parse.rs` lines 130–144): `for`, a
pattern (running to the `in`), `in`, the iterable expression (running to
the body's brace group), then the braced body. -/
def parseInterpFor : Nat → List Tok →
    Except ParseError (InterpValue × List Tok)
  | 0, ts => .error (fuelError ts)
  | fuel+1, ts =>
      match ts with
      | Tok.kwFor :: ts1 =>
          let p := splitTop stopKwIn ts1
          if p.1.isEmpty then .error ⟨["pattern"], ts1⟩
          else
            match p.2 with
            | Tok.kwIn :: ts2 => do
                let (iter, ts3) ← parseExprStop stopBraces ts2
                match ts3 with
                | Tok.braces inner :: rest => do
                    let g ← parseGroup fuel inner
                    .ok (InterpValue.ifor p.1 iter g, rest)
                | ts3 => .error ⟨["curly braces"], ts3⟩
            | _ => .error ⟨["in"], ts1⟩
      | ts => .error ⟨["for"], ts⟩

end

example :
    parseGroup 9 [Tok.ident "br", Tok.semi] =
      .ok (Group.mk [Node.element (Element.void ⟨Name.ident "br", none⟩)]) := rfl

example :
    parseGroup 9 [Tok.ident "meta",
      Tok.brackets [Tok.ident "charset", Tok.eqSign, Tok.litStr "UTF-8"],
      Tok.semi] = .ok exMeta := rfl

example :
    parseGroup 9 [Tok.ident "div",
      Tok.brackets [Tok.ident "class", Tok.eqSign, Tok.litStr "a"],
      Tok.braces [Tok.litStr "Hi"]] = .ok exDiv := rfl

example :
    parseGroup 9 [Tok.ident "div", Tok.braces [Tok.atSign, Tok.ident "x"]] =
      .ok exDivX := rfl

/-! ### Helper lemmas: strings -/

theorem str_data_append (a b : String) : (a ++ b).data = a.data ++ b.data := by
  cases a; cases b; rfl

theorem str_data_push (s : String) (c : Char) :
    (s.push c).data = s.data ++ [c] := by
  cases s; rfl

theorem str_data_empty : ("" : String).data = [] := rfl

theorem str_ext {a b : String} (h : a.data = b.data) : a = b := by
  cases a; cases b; exact congrArg String.mk h

theorem str_push_eq (s : String) (c : Char) :
    s.push c = s ++ String.singleton c := by
  apply str_ext
  simp [str_data_push, str_data_append, String.singleton]

theorem str_append_empty (s : String) : s ++ "" = s := by
  apply str_ext
  simp [str_data_append, str_data_empty]

theorem str_empty_append (s : String) : "" ++ s = s := by
  apply str_ext
  simp [str_data_append, str_data_empty]

theorem str_push_ne_empty (s : String) (c : Char) : s.push c ≠ "" := by
  intro h
  have h2 := congrArg String.data h
  simp [str_data_push, str_data_empty] at h2

theorem str_append_ne_empty_right (s t : String) (h : t ≠ "") :
    s ++ t ≠ "" := by
  intro hc
  apply h
  have h2 := congrArg String.data hc
  rw [str_data_append, str_data_empty] at h2
  apply str_ext
  rw [str_data_empty]
  exact (List.append_eq_nil.mp h2).2

/-! ### Helper lemmas: escaping -/

/-- The escaped characters: `&`, `<`, `>`, `'`, `"`. -/
def specialChars : List Char :=
  ['&', '<', '>', Char.ofNat 39, '"']

/-- Decidable check that no character of the list is escaped. -/
def noSpecials : List Char → Bool
  | [] => true
  | c :: cs => !(specialChars.contains c) && noSpecials cs

theorem escFold_eq (l : List Char) (b : String) :
    Stream.escFold b l = b ++ escText l := by
  induction l generalizing b with
  | nil => simp [Stream.escFold, escText, str_append_empty]
  | cons c cs ih =>
      simp [Stream.escFold, escText, ih, String.append_assoc]

theorem push_escaped_eq (st : Stream) (s : String) :
    st.push_escaped s = { st with buffer := st.buffer ++ escText s.data } := by
  simp [Stream.push_escaped, escFold_eq]

/-- The per-character escaping of the runtime `char` implementation agrees
with the compile-time `push_escaped` mapping. -/
theorem charWrite_eq_escSeg (c : Char) (s : String) :
    Html.charWrite c s = s ++ Stream.escSeg c := by
  unfold Html.charWrite Stream.escSeg
  split
  · rfl
  · split
    · rfl
    · split
      · rfl
      · split
        · rfl
        · split
          · rfl
          · exact str_push_eq s c

theorem strWriteAux_eq (l : List Char) (s : String) :
    Html.strWriteAux l s = s ++ escText l := by
  induction l generalizing s with
  | nil => simp [Html.strWriteAux, escText, str_append_empty]
  | cons c cs ih =>
      simp [Html.strWriteAux, escText, ih, charWrite_eq_escSeg,
        String.append_assoc]

theorem strWrite_eq (t s : String) : Html.strWrite t s = s ++ escText t.data := by
  simp [Html.strWrite, strWriteAux_eq]

theorem escSeg_of_clean {c : Char} (h : specialChars.contains c = false) :
    Stream.escSeg c = String.singleton c := by
  simp [specialChars, List.contains] at h
  obtain ⟨h1, h2, h3, h4, h5⟩ := h
  simp [Stream.escSeg, h1, h2, h3, h4, h5]

theorem escText_of_clean {l : List Char} (h : noSpecials l = true) :
    escText l = String.mk l := by
  induction l with
  | nil => rfl
  | cons c cs ih =>
      simp only [noSpecials, Bool.and_eq_true, Bool.not_eq_true'] at h
      have hseg := escSeg_of_clean h.1
      have := ih h.2
      simp [escText, hseg, this, String.singleton]
      apply str_ext
      simp [str_data_append]

/-! ### Helper lemmas: the stream and flushing -/

theorem push_tokens_stream (st : Stream) (i : Instr) :
    (st.push_tokens i).stream =
      st.stream ++ (if st.buffer = "" then [i] else [Instr.flush st.buffer, i]) := by
  unfold Stream.push_tokens
  split <;> simp_all

theorem push_tokens_buffer (st : Stream) (i : Instr) :
    (st.push_tokens i).buffer = "" := by
  unfold Stream.push_tokens
  split <;> simp_all

theorem push_char_eq (st : Stream) (c : Char) :
    st.push_char c = { st with buffer := st.buffer ++ String.singleton c } := by
  simp [Stream.push_char, str_push_eq]

theorem sing_space : String.singleton ' ' = " " := rfl

theorem sing_eq : String.singleton '=' = "=" := rfl

theorem sing_quot : String.singleton '"' = "\"" := rfl

theorem sing_lt : String.singleton '<' = "<" := rfl

theorem sing_gt : String.singleton '>' = ">" := rfl

theorem sing_slash : String.singleton '/' = "/" := rfl

/-! ### Helper lemmas: static generation

A static construct never emits an instruction: it only appends its
(compile-time escaped) text to the pending literal buffer. -/

theorem name_generate_eq (n : Name) (st : Stream) :
    n.generate st = { st with buffer := st.buffer ++ n.text } := by
  simp [Name.generate, Stream.push_raw]

theorem attr_generate_static {a : Attr} (h : a.isStatic = true) (st : Stream) :
    a.generate st = { st with buffer := st.buffer ++ a.staticText } := by
  unfold Attr.generate Attr.staticText
  match hv : a.value with
  | none =>
      simp [push_char_eq, name_generate_eq, sing_space, String.append_assoc]
  | some (Expr.litStr s) =>
      simp [push_char_eq, name_generate_eq, push_escaped_eq, sing_space,
        sing_eq, sing_quot, String.append_assoc]
  | some (Expr.litBool b) =>
      cases b with
      | false => simp [str_append_empty]
      | true =>
          simp [push_char_eq, name_generate_eq, sing_space,
            String.append_assoc]
  | some (Expr.dyn ts) =>
      simp [Attr.isStatic, hv] at h

theorem foldl_staticText_append (ls : List Attr) (pre : String) :
    ls.foldl (fun acc attr => acc ++ attr.staticText) pre =
      pre ++ ls.foldl (fun acc attr => acc ++ attr.staticText) "" := by
  induction ls generalizing pre with
  | nil => simp [str_append_empty]
  | cons x xs ih =>
      simp only [List.foldl_cons]
      rw [ih (pre ++ x.staticText), ih ("" ++ x.staticText), str_empty_append,
        String.append_assoc]

theorem attrs_generate_static {l : List Attr} (h : l.all Attr.isStatic = true)
    (st : Stream) :
    Attrs.generate ⟨l⟩ st =
      { st with buffer :=
          st.buffer ++ l.foldl (fun acc attr => acc ++ attr.staticText) "" } := by
  induction l generalizing st with
  | nil => simp [Attrs.generate, str_append_empty]
  | cons a rest ih =>
      simp only [List.all_cons, Bool.and_eq_true] at h
      have step := attr_generate_static h.1 st
      have hrec := ih h.2 { st with buffer := st.buffer ++ a.staticText }
      simp only [Attrs.generate, List.foldl_cons] at *
      rw [step, hrec]
      congr 1
      rw [str_empty_append, foldl_staticText_append rest a.staticText,
        String.append_assoc]

theorem attrs_generateOpt_static {oa : Option Attrs}
    (h : Attrs.isStaticOpt oa = true) (st : Stream) :
    Attrs.generateOpt oa st =
      { st with buffer := st.buffer ++ Attrs.staticTextOpt oa } := by
  match oa with
  | none => simp [Attrs.generateOpt, Attrs.staticTextOpt, str_append_empty]
  | some ⟨l⟩ =>
      simp only [Attrs.isStaticOpt] at h
      simpa [Attrs.generateOpt, Attrs.staticTextOpt] using
        attrs_generate_static h st

mutual

/-- A static group only appends its escaped text to the pending buffer;
it emits no instruction. -/
theorem group_generate_static (g : Group) (h : g.isStatic = true)
    (st : Stream) :
    Group.generate g st = { st with buffer := st.buffer ++ g.staticText } := by
  match g with
  | .mk ns =>
      simp only [Group.isStatic] at h
      simp only [Group.generate, Group.staticText]
      exact nodeList_generate_static ns h st
termination_by sizeOf g
decreasing_by all_goals (simp_wf; try omega)

theorem nodeList_generate_static (ns : List Node)
    (h : Node.isStaticList ns = true) (st : Stream) :
    Node.generateList ns st =
      { st with buffer := st.buffer ++ Node.staticTextList ns } := by
  match ns with
  | [] => simp [Node.generateList, Node.staticTextList, str_append_empty]
  | n :: rest =>
      simp only [Node.isStaticList, Bool.and_eq_true] at h
      simp only [Node.generateList, Node.staticTextList]
      rw [node_generate_static n h.1 st,
        nodeList_generate_static rest h.2 _, String.append_assoc]
termination_by sizeOf ns
decreasing_by all_goals (simp_wf; try omega)

theorem node_generate_static (n : Node) (h : Node.isStatic n = true)
    (st : Stream) :
    Node.generate n st = { st with buffer := st.buffer ++ Node.staticText n } := by
  match n with
  | .literal s =>
      simp [Node.generate, Node.staticText, push_escaped_eq]
  | .interp v => simp [Node.isStatic] at h
  | .element (.void v) =>
      simp only [Node.isStatic] at h
      simp [Node.generate, Element.generate, Void.generate, Node.staticText,
        push_char_eq, name_generate_eq, attrs_generateOpt_static h,
        sing_lt, sing_gt, String.append_assoc]
  | .element (.normal (.mk name attrs none)) =>
      simp only [Node.isStatic, Bool.and_eq_true] at h
      simp [Node.generate, Element.generate, Normal.generate,
        Node.staticText, push_char_eq, name_generate_eq,
        attrs_generateOpt_static h.1, sing_lt, sing_gt, sing_slash,
        str_append_empty, String.append_assoc]
  | .element (.normal (.mk name attrs (some g))) =>
      simp only [Node.isStatic, Bool.and_eq_true] at h
      have hg : g.isStatic = true := by simpa using h.2
      simp [Node.generate, Element.generate, Normal.generate,
        Node.staticText, push_char_eq, name_generate_eq,
        attrs_generateOpt_static h.1, group_generate_static g hg,
        sing_lt, sing_gt, sing_slash, String.append_assoc]
termination_by sizeOf n
decreasing_by all_goals (simp_wf; try omega)

end

/-- Compiling a static group yields the empty program when its escaped
text is empty and exactly one verbatim flush of that text otherwise. -/
theorem compile_static (g : Group) (h : g.isStatic = true) :
    compileGroup g =
      if g.staticText = "" then [] else [Instr.flush g.staticText] := by
  unfold compileGroup
  rw [group_generate_static g h Stream.new]
  simp [Stream.toInstrs, Stream.new, str_empty_append]

/-! ### The claims -/

/-- C1, counterexample: the empty `Group` contains only static content
(vacuously) yet compiles to the empty output program — zero flush
instructions, not exactly one. -/
theorem c1_counterexample :
    Group.isStatic (Group.mk []) = true ∧
    compileGroup (Group.mk []) = [] ∧
    Instr.countFlushList (compileGroup (Group.mk [])) = 0 :=
  ⟨rfl, rfl, rfl⟩

/-- C1 (amended): for every static `Group`, generation yields zero
dynamic-write instructions and at most one flush instruction — exactly
one flush of the whole escaped text whenever that text is non-empty (a
group whose escaped static text is empty, such as the empty group,
yields zero flushes); in particular `div[class="a"]{ "Hi" }` compiles to
exactly one flush of the literal text `<div class="a">Hi</div>`. -/
theorem c1_static_single_flush (g : Group) (h : g.isStatic = true) :
    Instr.countWriteList (compileGroup g) = 0 ∧
    Instr.countFlushList (compileGroup g) ≤ 1 ∧
    (g.staticText ≠ "" → compileGroup g = [Instr.flush g.staticText]) ∧
    compileGroup exDiv = [Instr.flush "<div class=\"a\">Hi</div>"] := by
  refine ⟨?_, ?_, ?_, rfl⟩
  · rw [compile_static g h]
    by_cases hs : g.staticText = "" <;>
      simp [hs, Instr.countWriteList, Instr.countWrite]
  · rw [compile_static g h]
    by_cases hs : g.staticText = "" <;>
      simp [hs, Instr.countFlushList, Instr.countFlush]
  · rw [compile_static g h]
    by_cases hs : g.staticText = "" <;> simp [hs]

/-- C1 witness: the amended claim applied to the concrete static template
`div[class="a"]{ "Hi" }`. -/
theorem c1_static_single_flush_witness :
    Group.isStatic exDiv = true ∧
    Instr.countWriteList (compileGroup exDiv) = 0 ∧
    Instr.countFlushList (compileGroup exDiv) ≤ 1 :=
  ⟨rfl, (c1_static_single_flush exDiv rfl).1,
    (c1_static_single_flush exDiv rfl).2.1⟩

/-- C2: the runtime (deferred) per-character escaping of `impl Html for
char` agrees exactly with the compile-time (eager) mapping of
`Stream::push_escaped`, so both paths produce identical output for every
string; `escape("<") = "&lt;"`, `escape("a&b") = "a&amp;b"`, and a string
free of the five special characters is unchanged. -/
theorem c2_escaping (c : Char) (t u s : String) (st : Stream)
    (hclean : noSpecials u.data = true) :
    Html.charWrite c s = s ++ Stream.escSeg c ∧
    Stream.push_escaped st t = { st with buffer := Html.strWrite t st.buffer } ∧
    Html.strWrite "<" "" = "&lt;" ∧
    Html.strWrite "a&b" "" = "a&amp;b" ∧
    Html.strWrite (String.mk specialChars) "" =
      "&amp;&lt;&gt;&apos;&quot;" ∧
    Html.strWrite u "" = u := by
  refine ⟨charWrite_eq_escSeg c s, ?_, rfl, rfl, rfl, ?_⟩
  · rw [push_escaped_eq, strWrite_eq]
  · rw [strWrite_eq, escText_of_clean hclean, str_empty_append]

/-- C2 witness: the escaping equivalences applied at concrete inputs. -/
theorem c2_escaping_witness :
    noSpecials "abc".data = true ∧
    Html.strWrite "abc" "" = "abc" ∧
    Html.strWrite "<" "" = "&lt;" := by
  refine ⟨rfl, ?_, ?_⟩
  · exact (c2_escaping 'x' "t" "abc" "" Stream.new rfl).2.2.2.2.2
  · exact (c2_escaping 'x' "t" "abc" "" Stream.new rfl).2.2.1

/-- C3: emitting a dynamic construct (a host-expression write or a
nested control-flow block) first flushes the accumulated literal buffer
verbatim — exactly one flush instruction, only when the buffer is
non-empty — and clears it, then emits the dynamic instruction; any
non-empty buffer at the end of generation is flushed once more; hence
`div { @x }` compiles to exactly two flushes surrounding one dynamic
write and renders `<div>5</div>` for runtime value `x = 5`. -/
theorem c3_flush_around_dynamic (st : Stream) (ts : List Tok) (c : Expr)
    (thn : Group) :
    (InterpValue.generate (.expr (.dyn ts)) st).stream =
      st.stream ++ (if st.buffer = "" then [] else [Instr.flush st.buffer]) ++
        [Instr.write (.dyn ts)] ∧
    (InterpValue.generate (.expr (.dyn ts)) st).buffer = "" ∧
    (InterpValue.generate (.iif c thn [] none) st).stream =
      st.stream ++ (if st.buffer = "" then [] else [Instr.flush st.buffer]) ++
        [Instr.ifHead c, Instr.block (compileGroup thn)] ∧
    Stream.toInstrs st =
      st.stream ++ (if st.buffer = "" then [] else [Instr.flush st.buffer]) ∧
    compileGroup exDivX =
      [Instr.flush "<div>", Instr.write (Expr.dyn [Tok.ident "x"]),
        Instr.flush "</div>"] ∧
    runProgram (fun _ => some (Html.intWrite 5)) (fun _ _ => none)
      (compileGroup exDivX) "" = some "<div>5</div>" := by
  refine ⟨?_, ?_, ?_, rfl, rfl, rfl⟩
  · rw [show InterpValue.generate (.expr (.dyn ts)) st =
        st.push_tokens (Instr.write (.dyn ts)) from rfl, push_tokens_stream]
    by_cases hb : st.buffer = "" <;> simp [hb]
  · rw [show InterpValue.generate (.expr (.dyn ts)) st =
        st.push_tokens (Instr.write (.dyn ts)) from rfl, push_tokens_buffer]
  · rw [show InterpValue.generate (.iif c thn [] none) st =
        (st.push_tokens (Instr.ifHead c)).push_tokens
          (Instr.block (compileGroup thn)) from rfl]
    rw [push_tokens_stream, push_tokens_stream, push_tokens_buffer]
    by_cases hb : st.buffer = "" <;> simp [hb]

/-- C4, counterexample: a bare identifier that is not followed by the
element-starting tokens is not consumed as a standalone literal-text
node — `Node`'s fallback parses a string literal, so a lone identifier
is a syntax error. -/
theorem c4_counterexample :
    parseNode 1 [Tok.ident "br"] =
      .error ⟨["string literal"], [Tok.ident "br"]⟩ := rfl

/-- C4 (amended): at a position beginning with a `Name`, `Node` parsing
takes the `Element` branch exactly when the tokens after the name (after
an optional bracket group) are `{` or `;` — and only then can it produce
an `Element`; when that lookahead fails, a string-literal name is
consumed as a standalone literal-text node, but a bare identifier is a
syntax error (`expected string literal`), not a literal node. -/
theorem c4_name_disambiguation (fuel : Nat) (ts : List Tok)
    (hname : peekName ts = true) :
    (nodeElemCond ts = true →
      parseNode (fuel+1) ts =
        (parseElement fuel ts).map (fun p => (Node.element p.1, p.2))) ∧
    (nodeElemCond ts = false → ∀ s rest,
      (ts = Tok.litStr s :: rest →
        parseNode (fuel+1) ts = .ok (Node.literal s, rest)) ∧
      (ts = Tok.ident s :: rest →
        parseNode (fuel+1) ts = .error ⟨["string literal"], ts⟩)) ∧
    (∀ e rest, parseNode (fuel+1) ts = .ok (Node.element e, rest) →
      nodeElemCond ts = true) := by
  refine ⟨?_, ?_, ?_⟩
  · intro hc
    simp only [parseNode, hname, hc, if_true]
    cases parseElement fuel ts with
    | ok p => rfl
    | error e => rfl
  · intro hc s rest
    constructor <;> intro heq <;> subst heq <;>
      simp only [parseNode, peekName, hc, Bool.false_eq_true, if_true,
        if_false, parseLitStr] <;> rfl
  · intro e rest hok
    by_cases hc : nodeElemCond ts = true
    · exact hc
    · exfalso
      rw [Bool.not_eq_true] at hc
      match ts, hname with
      | Tok.litStr s :: tl, _ =>
          simp [parseNode, peekName, hc, parseLitStr, Bind.bind,
            Except.bind] at hok
      | Tok.ident s :: tl, _ =>
          simp [parseNode, peekName, hc, parseLitStr, Bind.bind,
            Except.bind] at hok

/-- C4 witness: the amended disambiguation applied at concrete inputs —
a lone string literal becomes a literal-text node. -/
theorem c4_name_disambiguation_witness :
    parseNode 1 [Tok.litStr "Hi"] = .ok (Node.literal "Hi", []) :=
  ((c4_name_disambiguation 0 [Tok.litStr "Hi"] rfl).2.1 rfl "Hi" []).1 rfl

/-- C5: an interpolation `@e` whose expression is a bare string literal
generates exactly like a literal text node — the string is escaped at
generation time into the pending buffer and no instruction is
emitted. -/
theorem c5_literal_interp (s : String) (st : Stream) :
    InterpValue.generate (.expr (.litStr s)) st = Node.generate (.literal s) st ∧
    (InterpValue.generate (.expr (.litStr s)) st).stream = st.stream ∧
    (InterpValue.generate (.expr (.litStr s)) st).buffer =
      st.buffer ++ escText s.data := by
  refine ⟨rfl, ?_, ?_⟩ <;>
    simp [InterpValue.generate, push_escaped_eq]

/-- C6: an attribute with literal value `false` generates nothing at all
(the stream is untouched); literal `true` and a value-less attribute
both buffer a space followed by the bare attribute name, and generate
identically. -/
theorem c6_boolean_attrs (nm : Name) (st : Stream) :
    Attr.generate ⟨nm, some (Expr.litBool false)⟩ st = st ∧
    Attr.generate ⟨nm, some (Expr.litBool true)⟩ st =
      { st with buffer := st.buffer ++ (" " ++ nm.text) } ∧
    Attr.generate ⟨nm, none⟩ st =
      Attr.generate ⟨nm, some (Expr.litBool true)⟩ st := by
  refine ⟨rfl, ?_, rfl⟩
  have h := attr_generate_static (a := ⟨nm, some (Expr.litBool true)⟩) rfl st
  simpa [Attr.staticText, String.append_assoc] using h

/-- C7: the attribute-pair capability for optional values renders
`Some(x)` exactly as the attribute given `x` directly and renders
nothing for `None` (the whole attribute is omitted), for every
underlying attribute implementation. -/
theorem c7_optional_attr {α : Type} (w : String → α → String → String)
    (k : String) (x : α) (v : String) (s : String) :
    Html.attrOpt w k (some x) s = w k x s ∧
    Html.attrOpt w k none s = s ∧
    Html.attrOpt Html.attrStr k (some v) s = Html.attrStr k v s ∧
    Html.attrOpt Html.attrBool k none s = s :=
  ⟨rfl, rfl, rfl, rfl⟩

/-- C8: every `Void` element generates `<` plus the name's raw text,
then its attributes, then `>`, and nothing further — in particular never
a closing tag: the corresponding `Normal` element (same name, same
attributes, no children) generates exactly the void element's output
followed by the closing-tag pushes `<`, `/`, name, `>`, for every stream
state and also for dynamic attribute values (`area[href=@h];` compiles
with no closing tag); when the attributes are static the appended buffer
text is exactly `<` + name + attributes + `>`, and
`meta[charset="UTF-8"];` compiles to one flush of
`<meta charset="UTF-8">`. -/
theorem c8_void_element (v : Void) (st : Stream) :
    Void.generate v st =
      (Attrs.generateOpt v.attrs
        ((st.push_char '<').push_raw v.name.text)).push_char '>' ∧
    Normal.generate (Normal.mk v.name v.attrs none) st =
      ((((Void.generate v st).push_char '<').push_char '/').push_raw
        v.name.text).push_char '>' ∧
    (v.isStatic = true →
      Void.generate v st =
        { st with buffer :=
            st.buffer ++ ("<" ++ v.name.text ++ Attrs.staticTextOpt v.attrs ++ ">") } ∧
      (Normal.generate (Normal.mk v.name v.attrs none) st).buffer =
        (Void.generate v st).buffer ++ ("<" ++ "/" ++ v.name.text ++ ">")) ∧
    compileGroup exArea =
      [Instr.flush "<area ",
        Instr.writeAttr "href" (Expr.dyn [Tok.ident "h"]),
        Instr.flush ">"] ∧
    compileGroup exMeta = [Instr.flush "<meta charset=\"UTF-8\">"] := by
  refine ⟨rfl, rfl, ?_, rfl, rfl⟩
  intro h
  have hv := node_generate_static (Node.element (Element.void v))
    (by simpa [Node.isStatic, Void.isStatic] using h) st
  have hn := node_generate_static
    (Node.element (Element.normal (Normal.mk v.name v.attrs none)))
    (by simp [Node.isStatic, Void.isStatic] at h ⊢; exact h) st
  simp only [Node.generate, Element.generate, Node.staticText] at hv hn
  refine ⟨hv, ?_⟩
  rw [hv, hn]
  simp only [str_append_empty, String.append_assoc]

/-- C8 witness: the void-element characterization applied to the
concrete template `meta[charset="UTF-8"];`, discharging the embedded
static-attributes hypothesis there. -/
theorem c8_void_element_witness :
    Void.isStatic exMetaVoid = true ∧
    (Void.generate exMetaVoid Stream.new).buffer = "<meta charset=\"UTF-8\">" ∧
    compileGroup exMeta = [Instr.flush "<meta charset=\"UTF-8\">"] := by
  refine ⟨rfl, ?_, (c8_void_element exMetaVoid Stream.new).2.2.2.2⟩
  rw [((c8_void_element exMetaVoid Stream.new).2.2.1 rfl).1]
  rfl

/-- C9: a void element followed by an attempted body is rejected: for
every name, body and continuation, the `Group` parse aborts at the
disallowed brace-group token with the lookahead error listing the tokens
that could start a node; no AST is produced (the parser's result type
admits no partial output). -/
theorem c9_void_body_rejected (fuel : Nat) (nm : String)
    (body rest : List Tok) :
    parseGroup (fuel+4) (Tok.ident nm :: Tok.semi :: Tok.braces body :: rest)
      = .error ⟨nodeExpected, Tok.braces body :: rest⟩ := by
  simp [parseGroup, parseNode, parseElement, parseVoid, parseName,
    parseOptAttrs, peekName, nodeElemCond, voidCond, nodeExpected,
    Bind.bind, Except.bind]

/-- C10: a dynamic-valued attribute unconditionally appends one space to
the pending buffer before flushing and emitting the attribute-pair
write; consequently, when the runtime value makes the attribute-pair
capability omit the attribute (here: a `false` boolean), the rendered
output keeps that lone space — `input[checked=@b];` with `b = false`
renders `<input >`. -/
theorem c10_dynamic_attr_space (st : Stream) (nm : Name) (ts : List Tok) :
    (Attr.generate ⟨nm, some (Expr.dyn ts)⟩ st).stream =
      st.stream ++ [Instr.flush (st.buffer ++ " "),
        Instr.writeAttr nm.text (Expr.dyn ts)] ∧
    (Attr.generate ⟨nm, some (Expr.dyn ts)⟩ st).buffer = "" ∧
    compileGroup exInput =
      [Instr.flush "<input ",
        Instr.writeAttr "checked" (Expr.dyn [Tok.ident "b"]),
        Instr.flush ">"] ∧
    runProgram (fun _ => none) (fun k _ => some (Html.attrBool k false))
      (compileGroup exInput) "" = some "<input >" := by
  have hne : st.buffer ++ " " ≠ "" :=
    str_append_ne_empty_right st.buffer " " (by decide)
  have hsp : st.buffer.push ' ' = st.buffer ++ " " := by
    rw [str_push_eq, sing_space]
  refine ⟨?_, ?_, rfl, rfl⟩
  · rw [show Attr.generate ⟨nm, some (Expr.dyn ts)⟩ st =
        (st.push_char ' ').push_tokens
          (Instr.writeAttr nm.text (Expr.dyn ts)) from rfl,
      push_tokens_stream]
    simp [Stream.push_char, hne, hsp]
  · rw [show Attr.generate ⟨nm, some (Expr.dyn ts)⟩ st =
        (st.push_char ' ').push_tokens
          (Instr.writeAttr nm.text (Expr.dyn ts)) from rfl,
      push_tokens_buffer]

end Avosetta
